import Mathlib

/-!
Shallow embedding of `src/packages/subgraph/src/subgraph.ts` (the Semaphore
subgraph client): the GraphQL query builder used by `Subgraph.getGroups` and
`Subgraph.getGroup`, and the response normalizer that unwraps member records.

Query strings reproduce the TypeScript template literals byte for byte
(brace characters are written with `\x7b` / `\x7d` escapes).
-/

/-- Modelled from the spec: the `jsDateToGraphqlDate` helper of the repository
(in `utils`, not under `src/`) serializes a JavaScript `Date` into the
fixed textual date convention of the service (`YYYY-MM-DD`); the same encoding
function is used for all three timestamp filter variants. We model a date
by its calendar fields. -/
structure JsDate where
  year : Nat
  month : Nat
  day : Nat
deriving DecidableEq

/-- Two-digit zero padding for the date encoding. -/
def pad2 (n : Nat) : String :=
  if n < 10 then "0" ++ toString n else toString n

/-- Modelled from the spec: `jsDateToGraphqlDate` renders a date as
`YYYY-MM-DD`. -/
def jsDateToGraphqlDate (d : JsDate) : String :=
  toString d.year ++ "-" ++ pad2 d.month ++ "-" ++ pad2 d.day

/-- `GroupFilters` from `types` as used by `getGroups`: all fields optional.
`admin : Option String`, the three timestamps `Option JsDate`. -/
structure GroupFilters where
  admin : Option String
  timestamp : Option JsDate
  timestampGte : Option JsDate
  timestampLte : Option JsDate
deriving DecidableEq

/-- `GroupOptions` from `types`: `members` and `verifiedProofs` are optional
booleans (defaulted to `false` by the destructuring in the source), `filters`
an optional `GroupFilters`. -/
structure GroupOptions where
  members : Option Bool
  verifiedProofs : Option Bool
  filters : Option GroupFilters
deriving DecidableEq

/-- The `admin` fragment of the filter clause: the source guards with JS
truthiness (`if (admin)`), so an absent admin and the empty string both
contribute nothing; any other string yields `admin: "<value>"`. -/
def adminFragments (admin : Option String) : List String :=
  match admin with
  | none => []
  | some a => if a = "" then [] else ["admin: \"" ++ a ++ "\""]

/-- The timestamp fragment of the filter clause: the chain in the source
`if (timestamp) ... else if (timestampGte) ... else if (timestampLte) ...`
(a `Date` object is always truthy in JS, so presence is the test). -/
def timeFragments (timestamp timestampGte timestampLte : Option JsDate) : List String :=
  match timestamp with
  | some t => ["timestamp: \"" ++ jsDateToGraphqlDate t ++ "\""]
  | none =>
    match timestampGte with
    | some t => ["timestamp_gte: \"" ++ jsDateToGraphqlDate t ++ "\""]
    | none =>
      match timestampLte with
      | some t => ["timestamp_lte: \"" ++ jsDateToGraphqlDate t ++ "\""]
      | none => []

/-- The `filterFragments` array built by `getGroups`: the admin fragment is
pushed first, then at most one timestamp fragment. -/
def filterFragments (f : GroupFilters) : List String :=
  adminFragments f.admin ++ timeFragments f.timestamp f.timestampGte f.timestampLte

/-- The `filtersQuery` string of `getGroups`: empty when `options.filters` is
absent or when no fragment applies; otherwise `(where: \x7b...\x7d)` with the
fragments joined by `", "`. -/
def filtersQuery (filters : Option GroupFilters) : String :=
  match filters with
  | none => ""
  | some f =>
    let frags := filterFragments f
    if frags.isEmpty then "" else "(where: \x7b" ++ String.intercalate ", " frags ++ "\x7d)"

/-- The conditional `members` sub-selection (the inner template literal in the
source), byte for byte. -/
def membersSelection : String :=
  "members(orderBy: index) \x7b\n                            identityCommitment\n                        \x7d"

/-- The conditional `verifiedProofs` sub-selection (the inner template literal
in the source), byte for byte. -/
def verifiedProofsSelection : String :=
  "verifiedProofs(orderBy: timestamp) \x7b\n                            signal\n                            merkleTreeRoot\n                            externalNullifier\n                            nullifierHash\n                            timestamp\n                        \x7d"

/-- The selection block shared verbatim by the `getGroups` and `getGroup`
template literals: everything from the `\x7b` that follows the `groups` scope
to the closing `\x7d` of the outer query, including the two conditional
sub-selections (`... === true ? ... : ""`). -/
def groupSelection (members verifiedProofs : Bool) : String :=
  "\x7b\n                        id\n                        merkleTree \x7b\n                            root\n                            depth\n                            zeroValue\n                            numberOfLeaves\n                        \x7d\n                        admin\n                        "
    ++ (if members then membersSelection else "")
    ++ "\n                        "
    ++ (if verifiedProofs then verifiedProofsSelection else "")
    ++ "\n                    \x7d\n                \x7d"

/-- The query text built by `getGroups`:
`` `{\n groups ${filtersQuery} {...}\n}` `` with the exact source whitespace, after the destructuring defaults `members = false`,
`verifiedProofs = false`. -/
def getGroupsQuery (o : GroupOptions) : String :=
  "\x7b\n                    groups " ++ filtersQuery o.filters ++ " "
    ++ groupSelection (o.members.getD false) (o.verifiedProofs.getD false)

/-- The query text built by `getGroup`:
`` `{\n groups(where: { id: "${groupId}" }) {...}\n}` `` with the exact source
whitespace; `groupId` is interpolated verbatim. -/
def getGroupQuery (groupId : String) (o : GroupOptions) : String :=
  "\x7b\n                    groups(where: \x7b id: \"" ++ groupId ++ "\" \x7d) "
    ++ groupSelection (o.members.getD false) (o.verifiedProofs.getD false)

/- ### String infrastructure: substring test and identifier tokenization -/

/-- `isPrefixList pat s` : is `pat` a prefix of `s` (on character lists). -/
def isPrefixList : List Char → List Char → Bool
  | [], _ => true
  | _ :: _, [] => false
  | p :: ps, c :: cs => p = c && isPrefixList ps cs

/-- `hasInfix s pat` : does `pat` occur contiguously inside `s`. -/
def hasInfix : List Char → List Char → Bool
  | [], pat => pat.isEmpty
  | s@(_ :: rest), pat => isPrefixList pat s || hasInfix rest pat

/-- Substring test on strings. -/
def strContains (s pat : String) : Bool :=
  hasInfix s.data pat.data

/-- Splits a character list into maximal runs of letters, dropping everything
else; `acc` holds the current run reversed. Used to enumerate the identifier
tokens (field names, scopes, argument names) of a query document. -/
def identRuns : List Char → List Char → List (List Char)
  | [], [] => []
  | [], acc => [acc.reverse]
  | c :: cs, acc =>
    if c.isAlpha then identRuns cs (c :: acc)
    else if acc.isEmpty then identRuns cs []
    else acc.reverse :: identRuns cs []

/-- The identifier tokens of a query document, in order of occurrence. -/
def identTokens (s : String) : List String :=
  (identRuns s.data []).map List.asString

/- ### Response model and normalizer -/

/-- The `merkleTree` sub-record of a group response. -/
structure MerkleTree where
  root : String
  depth : Nat
  zeroValue : String
  numberOfLeaves : Nat
deriving DecidableEq

/-- A raw member entry as the service returns it: a single-field wrapper
object around the identity commitment. -/
structure RawMember where
  identityCommitment : String
deriving DecidableEq

/-- A verified-proof record of a group response. -/
structure VerifiedProof where
  signal : String
  merkleTreeRoot : String
  externalNullifier : String
  nullifierHash : String
  timestamp : String
deriving DecidableEq

/-- A raw decoded group record: `members` and `verifiedProofs` are `none`
when the corresponding sub-selection was not requested (the JS field is then
`undefined`). -/
structure RawGroup where
  id : String
  merkleTree : MerkleTree
  admin : String
  members : Option (List RawMember)
  verifiedProofs : Option (List VerifiedProof)
deriving DecidableEq

/-- The dynamic value held by the `members` field of a returned group: either the
raw field passed through untouched, or the list of bare identifiers written
back by `group.members = group.members.map(m => m.identityCommitment)`. -/
inductive JsMembers where
  | raw : Option (List RawMember) → JsMembers
  | ids : List String → JsMembers
deriving DecidableEq

/-- A group record as the client returns it. -/
structure NormGroup where
  id : String
  merkleTree : MerkleTree
  admin : String
  members : JsMembers
  verifiedProofs : Option (List VerifiedProof)
deriving DecidableEq

/-- A group returned with its `members` field untouched (the `members ==
false` paths, where the loop body never runs). -/
def passthrough (g : RawGroup) : NormGroup :=
  ⟨g.id, g.merkleTree, g.admin, JsMembers.raw g.members, g.verifiedProofs⟩

/-- The loop body
`group.members = group.members.map(m => m.identityCommitment)`:
when the raw `members` field is `undefined`, calling `.map` on it throws a
`TypeError`, modelled as `Except.error`. -/
def unwrapMembers (g : RawGroup) : Except String NormGroup :=
  match g.members with
  | some ms =>
    Except.ok ⟨g.id, g.merkleTree, g.admin,
      JsMembers.ids (ms.map RawMember.identityCommitment), g.verifiedProofs⟩
  | none => Except.error "TypeError: Cannot read properties of undefined (reading map)"

/-- The `for (const group of groups)` loop of `getGroups`: unwraps the members of each
group in order, propagating the first thrown `TypeError`. -/
def unwrapAll : List RawGroup → Except String (List NormGroup)
  | [] => Except.ok []
  | g :: gs =>
    match unwrapMembers g with
    | Except.error e => Except.error e
    | Except.ok g' =>
      match unwrapAll gs with
      | Except.error e => Except.error e
      | Except.ok gs' => Except.ok (g' :: gs')

/-- The response-normalization step of `getGroups` applied to the decoded
`groups` array: when the `members` option is set the loop rewrites the
`members` field of each group; otherwise the array is returned unchanged. -/
def normalizeGroups (membersFlag : Bool) (groups : List RawGroup) :
    Except String (List NormGroup) :=
  if membersFlag then unwrapAll groups
  else Except.ok (groups.map passthrough)

/-- The response-normalization step of `getGroup`: when the `members` option
is set it runs `groups[0].members = groups[0].members.map(...)` — on an empty
array `groups[0]` is `undefined` and the property read throws — and the call
returns `groups[0]` (`undefined`, i.e. `none`, when the array is empty). -/
def normalizeGetGroup (membersFlag : Bool) (groups : List RawGroup) :
    Except String (Option NormGroup) :=
  if membersFlag then
    match groups with
    | [] => Except.error "TypeError: Cannot read properties of undefined (reading members)"
    | g :: _ =>
      match unwrapMembers g with
      | Except.error e => Except.error e
      | Except.ok g' => Except.ok (some g')
  else
    Except.ok (groups.head?.map passthrough)

/- ### Helper lemmas -/

theorem strData_append : ∀ (a b : String), (a ++ b).data = a.data ++ b.data
  | ⟨_⟩, ⟨_⟩ => rfl

theorem isPrefixList_append (p rest : List Char) : isPrefixList p (p ++ rest) = true := by
  induction p with
  | nil => rfl
  | cons c cs ih => simp [isPrefixList, ih]

theorem hasInfix_self_prefix : ∀ (p y : List Char), hasInfix (p ++ y) p = true := by
  intro p y
  cases p with
  | nil => cases y <;> simp [hasInfix, List.isEmpty, isPrefixList]
  | cons c ps =>
    show hasInfix ((c :: ps) ++ y) (c :: ps) = true
    rw [List.cons_append]
    unfold hasInfix
    rw [← List.cons_append, isPrefixList_append]
    rfl

theorem hasInfix_mid (x p y : List Char) : hasInfix (x ++ (p ++ y)) p = true := by
  induction x with
  | nil => simpa using hasInfix_self_prefix p y
  | cons c xs ih =>
    rw [List.cons_append]
    unfold hasInfix
    rw [ih, Bool.or_true]

theorem strContains_mid (s pat : String) (x y : List Char)
    (h : s.data = x ++ (pat.data ++ y)) : strContains s pat = true := by
  unfold strContains
  rw [h]
  exact hasInfix_mid x pat.data y

theorem unwrapMembers_of_some (g : RawGroup) (ms : List RawMember) (h : g.members = some ms) :
    unwrapMembers g = Except.ok
      ⟨g.id, g.merkleTree, g.admin,
        JsMembers.ids (ms.map RawMember.identityCommitment), g.verifiedProofs⟩ := by
  unfold unwrapMembers
  rw [h]

theorem unwrapMembers_fields (g : RawGroup) (g' : NormGroup)
    (h : unwrapMembers g = Except.ok g') :
    g'.id = g.id ∧ g'.merkleTree = g.merkleTree ∧ g'.admin = g.admin ∧
    g'.verifiedProofs = g.verifiedProofs ∧
    g'.members = JsMembers.ids ((g.members.getD []).map RawMember.identityCommitment) := by
  unfold unwrapMembers at h
  cases hm : g.members with
  | none => rw [hm] at h; cases h
  | some ms =>
    rw [hm] at h
    cases h
    simp

theorem unwrapAll_get (gs : List RawGroup) (gs' : List NormGroup)
    (h : unwrapAll gs = Except.ok gs') :
    gs'.length = gs.length ∧
    ∀ i (hi : i < gs.length) (hi' : i < gs'.length),
      unwrapMembers (gs.get ⟨i, hi⟩) = Except.ok (gs'.get ⟨i, hi'⟩) := by
  induction gs generalizing gs' with
  | nil =>
    unfold unwrapAll at h
    cases h
    exact ⟨rfl, fun i hi => absurd hi (Nat.not_lt_zero i)⟩
  | cons g rest ih =>
    unfold unwrapAll at h
    cases hg : unwrapMembers g with
    | error e => rw [hg] at h; cases h
    | ok g1 =>
      rw [hg] at h
      cases hr : unwrapAll rest with
      | error e => rw [hr] at h; cases h
      | ok rest' =>
        rw [hr] at h
        cases h
        obtain ⟨hlen, hget⟩ := ih rest' hr
        refine ⟨by simp [hlen], ?_⟩
        intro i hi hi'
        cases i with
        | zero => simpa using hg
        | succ n =>
          simpa using hget n (by simpa using hi) (by simpa using hi')

/- ### Claim theorems -/

/-- Claim C1, counterexample: with `options.members == true` and a service
response whose `groups` sequence is empty, `getGroup` does not return an
absent value — the normalization step throws a `TypeError` (reading a
property of `groups[0]`, which is `undefined`), modelled as `Except.error`.
This refutes the claim that an absent value is returned for every
`GroupOptions` value. -/
theorem getGroup_empty_members_true_raises :
    normalizeGetGroup true ([] : List RawGroup)
        = Except.error "TypeError: Cannot read properties of undefined (reading members)"
  ∧ normalizeGetGroup true ([] : List RawGroup) ≠ Except.ok none :=
  ⟨rfl, fun h => Except.noConfusion h⟩

/-- Claim C1, amended: for every `GroupOptions` value, when the raw `groups`
sequence is empty, `getGroup` returns an absent value (`none`) without error
if `options.members` is `false` or unset, and raises a `TypeError` if
`options.members == true`. -/
theorem getGroup_empty_response (o : GroupOptions) :
    normalizeGetGroup (o.members.getD false) ([] : List RawGroup)
      = if o.members.getD false then
          Except.error "TypeError: Cannot read properties of undefined (reading members)"
        else Except.ok none := by
  cases h : o.members.getD false <;> simp [normalizeGetGroup]

/-- Claim C3: the timestamp family of the `getGroups` filter clause is
mutually exclusive with precedence `timestamp` over `timestampGte` over
`timestampLte`: with all three set only the `timestamp` encoding is emitted;
with only the two bounds set only the `timestampGte` encoding is emitted;
with none set no time fragment is emitted at all. The `admin` part is
unaffected in each case. -/
theorem timestamp_precedence (a : Option String) (t1 t2 t3 : JsDate) :
    filterFragments ⟨a, some t1, some t2, some t3⟩
        = adminFragments a ++ ["timestamp: \"" ++ jsDateToGraphqlDate t1 ++ "\""]
  ∧ filterFragments ⟨a, none, some t2, some t3⟩
        = adminFragments a ++ ["timestamp_gte: \"" ++ jsDateToGraphqlDate t2 ++ "\""]
  ∧ filterFragments ⟨a, none, none, none⟩ = adminFragments a := by
  refine ⟨rfl, rfl, ?_⟩
  simp [filterFragments, timeFragments]

set_option maxRecDepth 8000 in
/-- Claim C5, counterexample: a filters value whose `admin` field is present
but equal to the empty string produces no admin fragment and no filter clause
at all — the source guards the push with JS truthiness, and `""` is falsy.
This refutes the claim for the admin value `""`. -/
theorem admin_empty_string_no_fragment :
    filterFragments ⟨some "", none, none, none⟩ = []
  ∧ filtersQuery (some ⟨some "", none, none, none⟩) = ""
  ∧ strContains (getGroupsQuery ⟨none, none, some ⟨some "", none, none, none⟩⟩)
      "admin: \"" = false := by
  refine ⟨rfl, rfl, ?_⟩
  decide

/-- Claim C5, amended: for every filters value whose `admin` field is present
and non-empty, the fragment list emitted by `getGroups` starts with the admin
equality fragment for that value, followed by whatever the timestamp family
contributes — so the admin fragment is included independently of the
timestamp fields. (For the empty string, JS truthiness drops the fragment.) -/
theorem admin_fragment_included (a : String) (h : a ≠ "") (t g l : Option JsDate) :
    filterFragments ⟨some a, t, g, l⟩
      = ("admin: \"" ++ a ++ "\"") :: timeFragments t g l := by
  simp [filterFragments, adminFragments, h]

/-- Witness for `admin_fragment_included` at `admin = "0xabc"` with all three
timestamp fields set. -/
theorem admin_fragment_included_witness :
    filterFragments ⟨some "0xabc", some ⟨2020, 1, 2⟩, some ⟨2021, 3, 4⟩, some ⟨2022, 5, 6⟩⟩
      = ["admin: \"0xabc\"", "timestamp: \"2020-01-02\""] :=
  admin_fragment_included "0xabc" (by decide) (some ⟨2020, 1, 2⟩) (some ⟨2021, 3, 4⟩)
    (some ⟨2022, 5, 6⟩)

/-- Claim C6: the query built by `getGroup` filters only by exact `id` match
on `groupId`: `options.filters` is never consulted (replacing it by any other
value leaves the query text unchanged), and the query text is exactly the
single-id `where` clause followed by the selection block. -/
theorem getGroup_ignores_filters (gid : String) (o : GroupOptions) (f : Option GroupFilters) :
    getGroupQuery gid { o with filters := f } = getGroupQuery gid o
  ∧ getGroupQuery gid o
      = "\x7b\n                    groups(where: \x7b id: \"" ++ gid ++ "\" \x7d) "
          ++ groupSelection (o.members.getD false) (o.verifiedProofs.getD false) :=
  ⟨rfl, rfl⟩

/-- Claim C7: query building is deterministic — both builders are pure
functions of (entity scope, options), so building twice from the same input
yields byte-identical query text. -/
theorem query_building_deterministic (o : GroupOptions) (gid : String) :
    getGroupsQuery o = getGroupsQuery o ∧ getGroupQuery gid o = getGroupQuery gid o :=
  ⟨rfl, rfl⟩

set_option maxRecDepth 16000 in
/-- Claim C2: for every well-typed `GroupOptions` value, both query builders
produce the scope header followed by the shared selection block, and the
identifier tokens of that selection block are exactly `id`, `merkleTree`,
`root`, `depth`, `zeroValue`, `numberOfLeaves`, `admin`, plus the members
sub-selection tokens (`members`, `orderBy`, `index`, `identityCommitment`)
iff `options.members == true`, plus the verifiedProofs sub-selection tokens
(`verifiedProofs`, `orderBy`, `timestamp`, `signal`, `merkleTreeRoot`,
`externalNullifier`, `nullifierHash`, `timestamp`) iff
`options.verifiedProofs == true` — no extra and no missing fields. -/
theorem query_selection_fields_exact (o : GroupOptions) (gid : String) :
    getGroupsQuery o = "\x7b\n                    groups " ++ filtersQuery o.filters ++ " "
        ++ groupSelection (o.members.getD false) (o.verifiedProofs.getD false)
  ∧ getGroupQuery gid o
      = "\x7b\n                    groups(where: \x7b id: \"" ++ gid ++ "\" \x7d) "
        ++ groupSelection (o.members.getD false) (o.verifiedProofs.getD false)
  ∧ identTokens (groupSelection (o.members.getD false) (o.verifiedProofs.getD false))
      = ["id", "merkleTree", "root", "depth", "zeroValue", "numberOfLeaves", "admin"]
        ++ (if o.members.getD false then
              ["members", "orderBy", "index", "identityCommitment"] else [])
        ++ (if o.verifiedProofs.getD false then
              ["verifiedProofs", "orderBy", "timestamp", "signal", "merkleTreeRoot",
               "externalNullifier", "nullifierHash", "timestamp"] else []) := by
  refine ⟨rfl, rfl, ?_⟩
  cases hm : o.members.getD false <;> cases hv : o.verifiedProofs.getD false <;> decide

set_option maxRecDepth 16000 in
/-- Claim C4: when `options.filters` is absent, or present but contributes no
filter fragment (so the built `filtersQuery` string is empty), the `getGroups`
query is byte-identical to the query built with no filters at all and contains
no `(where:` filter syntax anywhere. -/
theorem no_filter_clause_when_empty (o : GroupOptions)
    (h : filtersQuery o.filters = "") :
    getGroupsQuery o = getGroupsQuery { o with filters := none }
  ∧ strContains (getGroupsQuery o) "(where:" = false := by
  constructor
  · unfold getGroupsQuery
    rw [h]
    rfl
  · unfold getGroupsQuery
    rw [h]
    cases hm : o.members.getD false <;> cases hv : o.verifiedProofs.getD false <;> decide

/-- Witness for `no_filter_clause_when_empty`: options requesting members and
proofs with a present-but-empty filters object contribute no fragment, and
the built query has no filter clause. -/
theorem no_filter_clause_when_empty_witness :
    getGroupsQuery ⟨some true, some true, some ⟨none, none, none, none⟩⟩
        = getGroupsQuery ⟨some true, some true, none⟩
  ∧ strContains (getGroupsQuery ⟨some true, some true, some ⟨none, none, none, none⟩⟩)
        "(where:" = false :=
  no_filter_clause_when_empty ⟨some true, some true, some ⟨none, none, none, none⟩⟩ rfl

set_option maxRecDepth 16000 in
/-- Claim C10: `getGroup` interpolates `groupId` verbatim and unescaped into
the query text, which therefore contains the exact substring
`groups(where: \x7b id: "` ++ groupId ++ `" \x7d)` for every `groupId`; in
particular for the id `x"y`, which contains a double-quote character, the
query embeds that character unescaped inside the id literal. -/
theorem getGroup_interpolates_verbatim (gid : String) (o : GroupOptions) :
    strContains (getGroupQuery gid o)
        ("groups(where: \x7b id: \"" ++ gid ++ "\" \x7d)") = true
  ∧ strContains (getGroupQuery "x\"y" ⟨none, none, none⟩) "id: \"x\"y\"" = true := by
  constructor
  · apply strContains_mid _ _ "\x7b\n                    ".data
      (" ".data ++ (groupSelection (o.members.getD false) (o.verifiedProofs.getD false)).data)
    have h1 : ("\x7b\n                    groups(where: \x7b id: \"" : String).data
        = ("\x7b\n                    " : String).data
            ++ ("groups(where: \x7b id: \"" : String).data := rfl
    have h2 : ("\" \x7d) " : String).data
        = ("\" \x7d)" : String).data ++ (" " : String).data := rfl
    simp only [getGroupQuery, strData_append, h1, h2, List.append_assoc]
    rfl
  · decide

/-- Claim C8: with `options.members == true`, normalization replaces the raw
wrapper records by their bare identifier values in order: every group of the
`getGroups` result whose raw record had
`members = [\x7bidentityCommitment: "5"\x7d, \x7bidentityCommitment: "9"\x7d]`
ends up with `members = ["5", "9"]`, and `getGroup` returns the first raw
group with its members rewritten the same way. -/
theorem members_unwrap_five_nine :
    (∀ (gs : List RawGroup) (gs' : List NormGroup),
        normalizeGroups true gs = Except.ok gs' →
        ∀ i (hi : i < gs.length) (hi' : i < gs'.length),
          (gs.get ⟨i, hi⟩).members = some [⟨"5"⟩, ⟨"9"⟩] →
          (gs'.get ⟨i, hi'⟩).members = JsMembers.ids ["5", "9"])
  ∧ (∀ (g : RawGroup) (rest : List RawGroup),
        g.members = some [⟨"5"⟩, ⟨"9"⟩] →
        normalizeGetGroup true (g :: rest)
          = Except.ok (some ⟨g.id, g.merkleTree, g.admin, JsMembers.ids ["5", "9"],
              g.verifiedProofs⟩)) := by
  constructor
  · intro gs gs' h i hi hi' hm
    unfold normalizeGroups at h
    rw [if_pos rfl] at h
    obtain ⟨-, hget⟩ := unwrapAll_get gs gs' h
    have hu := hget i hi hi'
    rw [unwrapMembers_of_some _ _ hm] at hu
    injection hu with hu
    rw [← hu]
    rfl
  · intro g rest hm
    have step : normalizeGetGroup true (g :: rest)
        = match unwrapMembers g with
          | Except.error e => Except.error e
          | Except.ok g' => Except.ok (some g') := rfl
    rw [step, unwrapMembers_of_some _ _ hm]
    rfl

/-- Witness for `members_unwrap_five_nine` at a concrete one-group response
whose raw members are the wrappers around `"5"` and `"9"`. -/
theorem members_unwrap_five_nine_witness :
    (([⟨"g1", ⟨"r", 20, "0", 2⟩, "0xa", JsMembers.ids ["5", "9"], none⟩] :
        List NormGroup).get ⟨0, Nat.one_pos⟩).members = JsMembers.ids ["5", "9"]
  ∧ normalizeGetGroup true [⟨"g1", ⟨"r", 20, "0", 2⟩, "0xa", some [⟨"5"⟩, ⟨"9"⟩], none⟩]
      = Except.ok (some ⟨"g1", ⟨"r", 20, "0", 2⟩, "0xa", JsMembers.ids ["5", "9"], none⟩) :=
  ⟨members_unwrap_five_nine.1
      [⟨"g1", ⟨"r", 20, "0", 2⟩, "0xa", some [⟨"5"⟩, ⟨"9"⟩], none⟩]
      [⟨"g1", ⟨"r", 20, "0", 2⟩, "0xa", JsMembers.ids ["5", "9"], none⟩]
      rfl 0 Nat.one_pos Nat.one_pos rfl,
    members_unwrap_five_nine.2 ⟨"g1", ⟨"r", 20, "0", 2⟩, "0xa", some [⟨"5"⟩, ⟨"9"⟩], none⟩
      [] rfl⟩

/-- Claim C9: normalization is a strict reshape of the `members` sub-field
only. Whenever `getGroups` normalization succeeds, the returned sequence has
the same length and order as the raw one, every field of every group other
than `members` is returned unchanged, and when the `members` option is false
the `members` field itself is passed through untouched (absent stays absent;
no empty-list default is invented and no field is fabricated or dropped). -/
theorem normalization_frame (flag : Bool) (gs : List RawGroup) (gs' : List NormGroup)
    (h : normalizeGroups flag gs = Except.ok gs') :
    gs'.length = gs.length ∧
    ∀ i (hi : i < gs.length) (hi' : i < gs'.length),
      (gs'.get ⟨i, hi'⟩).id = (gs.get ⟨i, hi⟩).id ∧
      (gs'.get ⟨i, hi'⟩).merkleTree = (gs.get ⟨i, hi⟩).merkleTree ∧
      (gs'.get ⟨i, hi'⟩).admin = (gs.get ⟨i, hi⟩).admin ∧
      (gs'.get ⟨i, hi'⟩).verifiedProofs = (gs.get ⟨i, hi⟩).verifiedProofs ∧
      (flag = false → (gs'.get ⟨i, hi'⟩).members = JsMembers.raw (gs.get ⟨i, hi⟩).members) := by
  cases flag with
  | false =>
    unfold normalizeGroups at h
    rw [if_neg (by simp)] at h
    injection h with h
    subst h
    refine ⟨List.length_map _ _, ?_⟩
    intro i hi hi'
    simp [passthrough, List.getElem_map]
  | true =>
    unfold normalizeGroups at h
    rw [if_pos rfl] at h
    obtain ⟨hlen, hget⟩ := unwrapAll_get gs gs' h
    refine ⟨hlen, ?_⟩
    intro i hi hi'
    obtain ⟨h1, h2, h3, h4, -⟩ := unwrapMembers_fields _ _ (hget i hi hi')
    exact ⟨h1, h2, h3, h4, fun hf => nomatch hf⟩

/-- Witness for `normalization_frame`: a concrete two-group response
normalized with the `members` option off keeps length, order, fields and the
untouched raw members. -/
theorem normalization_frame_witness :
    ([⟨"g1", ⟨"r1", 20, "0", 1⟩, "0xa", JsMembers.raw (some [⟨"7"⟩]), none⟩,
      ⟨"g2", ⟨"r2", 16, "0", 0⟩, "0xb", JsMembers.raw none, none⟩] :
        List NormGroup).length
      = ([⟨"g1", ⟨"r1", 20, "0", 1⟩, "0xa", some [⟨"7"⟩], none⟩,
          ⟨"g2", ⟨"r2", 16, "0", 0⟩, "0xb", none, none⟩] : List RawGroup).length :=
  (normalization_frame false
      [⟨"g1", ⟨"r1", 20, "0", 1⟩, "0xa", some [⟨"7"⟩], none⟩,
       ⟨"g2", ⟨"r2", 16, "0", 0⟩, "0xb", none, none⟩]
      [⟨"g1", ⟨"r1", 20, "0", 1⟩, "0xa", JsMembers.raw (some [⟨"7"⟩]), none⟩,
       ⟨"g2", ⟨"r2", 16, "0", 0⟩, "0xb", JsMembers.raw none, none⟩]
      rfl).1
